import Mathlib

/-!
Verification of the coordinate-to-grid reconstruction pipeline.

The development shallowly embeds the two dialects of the pipeline:

* the plain-text dialect (`parseCharacters`, `boundsOf`, `ptGrid`,
  `decodeSecretMessage`), which parses lines against a cascade of three
  regular-expression patterns, computes bounds by a min/max reduce seeded
  with the infinities, paints a dense grid and prints it top-to-bottom; and
* the row-text dialect (`extractDataFromRows`, `buildAndRenderGrid`),
  which extracts digit runs and non-digit runs from each table row's text,
  paints a zero-origin grid with a defensive bounds check, and prints it
  bottom-to-top.

Strings are modelled as Lean strings (lists of characters); JavaScript
numbers arising in the pipeline are integers, except for the `Infinity`
sentinels of the bounds reduce, which are modelled by the `JNum` type.
All definitions are structural recursions so that concrete runs reduce
inside the kernel.
-/

/-- JavaScript's regexp class `\d`: the ASCII decimal digits. -/
def isDigitJS (c : Char) : Bool := '0' ≤ c && c ≤ '9'

/-- JavaScript's regexp class `\s` (also the set removed by
`String.prototype.trim`): whitespace and line terminators. -/
def isJsWhite (c : Char) : Bool :=
  c = '\u0020' || c = '\u0009' || c = '\u000a' || c = '\u000d' ||
  c = '\u000b' || c = '\u000c' || c = '\u00a0' || c = '\u1680' ||
  ('\u2000' ≤ c && c ≤ '\u200a') ||
  c = '\u2028' || c = '\u2029' || c = '\u202f' || c = '\u205f' ||
  c = '\u3000' || c = '\ufeff'

/-- The characters matched by an un-flagged `.` in a JavaScript regexp:
everything but a line terminator. -/
def isDotOk (c : Char) : Bool :=
  !(c = '\u000a' || c = '\u000d' || c = '\u2028' || c = '\u2029')

/-- `content.split('\n')` on the character list of a string. -/
def splitLines : List Char → List (List Char)
  | [] => [[]]
  | c :: rest =>
    if c = '\n' then [] :: splitLines rest
    else
      match splitLines rest with
      | l :: ls => (c :: l) :: ls
      | [] => [[c]]

/-- `line.trim()`: remove leading and trailing JavaScript whitespace. -/
def trimJS (s : List Char) : List Char :=
  ((s.dropWhile isJsWhite).reverse.dropWhile isJsWhite).reverse

/-- `parseInt(s, 10)` restricted to the strings this pipeline feeds it:
non-empty runs of ASCII digits, whose value is the base-10 numeral.
(JavaScript would round values above `2^53` and overflow to `Infinity`
beyond `10^308`; no claim involves coordinates of that size.) -/
def parseIntDec (s : List Char) : Int :=
  Int.ofNat (s.foldl (fun a c => a * 10 + (c.toNat - '0'.toNat)) 0)

/-- One element of a regular-expression pattern, as used by the three
plain-text patterns: `.`, a literal character, a greedy `cls+`, or a
greedy `cls*` over a character class. -/
inductive Atom where
  | dot : Atom
  | lit : Char → Atom
  | plusCls : (Char → Bool) → Atom
  | starCls : (Char → Bool) → Atom

/-- The list `[n, n-1, ..., 1]`: the candidate lengths a greedy
quantifier tries, longest first. -/
def downFrom : Nat → List Nat
  | 0 => []
  | n + 1 => (n + 1) :: downFrom n

/-- Record a capture group's text if the atom is capturing. -/
def pushCap (cap : Bool) (s : List Char) (caps : List String) : List String :=
  if cap then String.mk s :: caps else caps

/-- Match a sequence of atoms against a prefix of `s`, returning the
captured groups on success.  Greedy quantifiers try the longest
possibility first and backtrack into shorter ones, which is exactly the
JavaScript search order for these patterns (no alternation, no nesting). -/
def matchAtoms : List (Atom × Bool) → List Char → Option (List String)
  | [], _ => some []
  | (Atom.dot, cap) :: pat, s =>
    match s with
    | [] => none
    | c :: rest =>
      if isDotOk c then (matchAtoms pat rest).map (pushCap cap [c]) else none
  | (Atom.lit ch, cap) :: pat, s =>
    match s with
    | [] => none
    | c :: rest =>
      if c = ch then (matchAtoms pat rest).map (pushCap cap [c]) else none
  | (Atom.plusCls p, cap) :: pat, s =>
    let run := s.takeWhile p
    (downFrom run.length).findSome? fun n =>
      (matchAtoms pat (s.drop n)).map (pushCap cap (s.take n))
  | (Atom.starCls p, cap) :: pat, s =>
    let run := s.takeWhile p
    ((downFrom run.length) ++ [0]).findSome? fun n =>
      (matchAtoms pat (s.drop n)).map (pushCap cap (s.take n))

/-- `line.match(re)` for an unanchored pattern: try each start position
from the left, returning the first (leftmost) match's captures. -/
def searchMatch (pat : List (Atom × Bool)) : List Char → Option (List String)
  | [] => matchAtoms pat []
  | c :: rest =>
    match matchAtoms pat (c :: rest) with
    | some caps => some caps
    | none => searchMatch pat rest

/-- The first plain-text pattern `(.)\s+(\d+)\s+(\d+)`. -/
def pat1 : List (Atom × Bool) :=
  [(Atom.dot, true), (Atom.plusCls isJsWhite, false),
   (Atom.plusCls isDigitJS, true), (Atom.plusCls isJsWhite, false),
   (Atom.plusCls isDigitJS, true)]

/-- The second plain-text pattern `(.),\s*(\d+),\s*(\d+)`. -/
def pat2 : List (Atom × Bool) :=
  [(Atom.dot, true), (Atom.lit ',', false), (Atom.starCls isJsWhite, false),
   (Atom.plusCls isDigitJS, true), (Atom.lit ',', false),
   (Atom.starCls isJsWhite, false), (Atom.plusCls isDigitJS, true)]

/-- The third plain-text pattern `(\S+)\s+(\d+)\s+(\d+)`. -/
def pat3 : List (Atom × Bool) :=
  [(Atom.plusCls (fun c => !(isJsWhite c)), true),
   (Atom.plusCls isJsWhite, false), (Atom.plusCls isDigitJS, true),
   (Atom.plusCls isJsWhite, false), (Atom.plusCls isDigitJS, true)]

/-- A coordinate record of the plain-text dialect:
`{ char, x: parseInt(x, 10), y: parseInt(y, 10) }`. -/
structure CharRec where
  char : String
  x : Int
  y : Int
deriving DecidableEq, Repr

/-- Build a record from the three captured groups of a pattern. -/
def toRec (caps : List String) : Option CharRec :=
  match caps with
  | [c, xs, ys] => some ⟨c, parseIntDec xs.data, parseIntDec ys.data⟩
  | _ => none

/-- The per-line body of `parseCharacters`: try the three patterns in
order, return the record of the first that matches, `none` otherwise. -/
def lineRecord (line : List Char) : Option CharRec :=
  match searchMatch pat1 line with
  | some caps => toRec caps
  | none =>
    match searchMatch pat2 line with
    | some caps => toRec caps
    | none =>
      match searchMatch pat3 line with
      | some caps => toRec caps
      | none => none

/-- `parseCharacters`: split on newlines, trim, drop blank lines, match
each remaining line against the pattern cascade, and drop the lines that
match none of the patterns. -/
def parseCharacters (content : String) : List CharRec :=
  ((((splitLines content.data).map trimJS).filter (fun l => l ≠ [])).filterMap
    lineRecord)

/-- A JavaScript number as it appears in the bounds reduce: an integer or
one of the `Infinity` sentinels the accumulator starts from. -/
inductive JNum where
  | negInf : JNum
  | fin : Int → JNum
  | posInf : JNum
deriving DecidableEq, Repr

/-- `Math.min` on `JNum` (no `NaN` arises in this pipeline). -/
def JNum.jmin : JNum → JNum → JNum
  | JNum.negInf, _ => JNum.negInf
  | _, JNum.negInf => JNum.negInf
  | JNum.posInf, b => b
  | a, JNum.posInf => a
  | JNum.fin a, JNum.fin b => JNum.fin (min a b)

/-- `Math.max` on `JNum`. -/
def JNum.jmax : JNum → JNum → JNum
  | JNum.posInf, _ => JNum.posInf
  | _, JNum.posInf => JNum.posInf
  | JNum.negInf, b => b
  | a, JNum.negInf => a
  | JNum.fin a, JNum.fin b => JNum.fin (max a b)

/-- The finite value of a `JNum`; the pipeline only reads bounds after
rejecting the empty record set, where all four fields are finite. -/
def JNum.toIntD : JNum → Int
  | JNum.fin n => n
  | _ => 0

/-- The accumulator of the bounds reduce. -/
structure BoundsJ where
  minX : JNum
  maxX : JNum
  minY : JNum
  maxY : JNum
deriving DecidableEq, Repr

/-- The initial accumulator
`{ minX: Infinity, maxX: -Infinity, minY: Infinity, maxY: -Infinity }`. -/
def boundsInit : BoundsJ :=
  ⟨JNum.posInf, JNum.negInf, JNum.posInf, JNum.negInf⟩

/-- One step of the bounds reduce. -/
def boundsStep (acc : BoundsJ) (r : CharRec) : BoundsJ :=
  ⟨acc.minX.jmin (JNum.fin r.x), acc.maxX.jmax (JNum.fin r.x),
   acc.minY.jmin (JNum.fin r.y), acc.maxY.jmax (JNum.fin r.y)⟩

/-- `characters.reduce(..., { minX: Infinity, ... })`. -/
def boundsOf (rs : List CharRec) : BoundsJ :=
  rs.foldl boundsStep boundsInit

/-- A dense character grid: rows of cells.  Cells hold strings because the
source stores whatever string the record carried into a single cell. -/
abbrev Grid := List (List String)

/-- A row of `w` fill characters. -/
def mkRow (w : Nat) : List String := List.replicate w " "

/-- `Array.from({length: h}, () => Array.from({length: w}, () => ' '))`. -/
def mkGrid (h w : Nat) : Grid := List.replicate h (mkRow w)

/-- `grid[0].length`, the width the row-text rasterizer checks against. -/
def gW (g : Grid) : Nat := (g.headD []).length

/-- `grid[r][c] = v`.  Both indices are in range at every call site of the
pipelines (proved below), where this coincides with the JavaScript
assignment; out of range it leaves the grid unchanged. -/
def setCell (g : Grid) (r c : Nat) (v : String) : Grid :=
  match g.get? r with
  | some row => g.set r (row.set c v)
  | none => g

/-- Read a cell. -/
def cellAt (g : Grid) (r c : Nat) : Option String :=
  (g.get? r).bind (fun row => row.get? c)

/-- `row.join('')`. -/
def rowJoin (row : List String) : String :=
  row.foldl (fun a s => a ++ s) ""

/-- The plain-text rasterizer: for each record, in order,
`grid[y - bounds.minY][x - bounds.minX] = char`. -/
def paintPT (g : Grid) (rs : List CharRec) (mX mY : Int) : Grid :=
  rs.foldl (fun g r => setCell g (r.y - mY).toNat (r.x - mX).toNat r.char) g

/-- The painted grid of the plain-text dialect: bounds from the record
set itself, a `(maxY-minY+1) × (maxX-minX+1)` grid of spaces, then the
records painted in order. -/
def ptGrid (rs : List CharRec) : Grid :=
  let b := boundsOf rs
  let mX := b.minX.toIntD
  let mY := b.minY.toIntD
  let h := (b.maxY.toIntD - mY + 1).toNat
  let w := (b.maxX.toIntD - mX + 1).toNat
  paintPT (mkGrid h w) rs mX mY

/-- The typed failure of the plain-text core: the `'No character data
found'` error.  Fetch failures belong to the external collaborator and
are outside the embedded core. -/
inductive PErr where
  | noData : PErr
deriving DecidableEq, Repr

/-- The core of `decodeSecretMessage` after the fetch: parse, reject an
empty record set, compute bounds, paint, and emit the rows top-to-bottom
(`grid.forEach(row => console.log(row.join('')))`). -/
def decodeSecretMessage (content : String) : Except PErr (List String) :=
  let characters := parseCharacters content
  if characters = [] then Except.error PErr.noData
  else Except.ok ((ptGrid characters).map rowJoin)

/-- One step of `runsBy`: extend the first run of the tail when the next
character continues it, start a fresh run otherwise. -/
def runsByCons (p : Char → Bool) (c : Char) (rest : List Char)
    (t : List (List Char)) : List (List Char) :=
  if p c then
    match t, rest with
    | run :: more, r :: _ =>
      if p r then (c :: run) :: more else [c] :: run :: more
    | _, _ => [[c]]
  else t

/-- Maximal runs of characters satisfying `p`, in order: the matches of a
global regexp over a one-character class, as `text.matchAll` yields them. -/
def runsBy (p : Char → Bool) : List Char → List (List Char)
  | [] => []
  | c :: rest => runsByCons p c rest (runsBy p rest)

/-- `text.matchAll(/\d+/g)`: the maximal digit runs of the text. -/
def digitRuns (s : List Char) : List (List Char) := runsBy isDigitJS s

/-- `text.matchAll(/\D+/g)`: the maximal non-digit runs of the text. -/
def nonDigitRuns (s : List Char) : List (List Char) :=
  runsBy (fun c => !(isDigitJS c)) s

/-- The failures of the row-text dialect: its `DataError`, and the
uncaught `TypeError` a JavaScript runtime raises. -/
inductive RowErr where
  | dataErr : String → RowErr
  | typeErr : String → RowErr
deriving DecidableEq, Repr

/-- A JavaScript value stored as a grid character: a string, or the array
of non-digit runs that `extractDataFromRows` pushes unjoined. -/
inductive JStr where
  | str : String → JStr
  | arr : List String → JStr
deriving DecidableEq, Repr

/-- `String(ch)`: an array stringifies by joining with commas. -/
def jsString : JStr → String
  | JStr.str v => v
  | JStr.arr vs => String.intercalate "," vs

/-- The per-row body of `extractDataFromRows`.  The call
`Array.from(text.matchAll(/\D+/g)).map(m => m.trim())` invokes `trim` on
each match object, which is an array and has no such method: the first
non-digit run therefore raises a `TypeError` before anything else.  Rows
whose text is entirely digits (or empty) reach the two-coordinate check
with an empty run list. -/
def rowRecord (text : String) : Except RowErr ((Int × Int) × JStr) :=
  let digits := (digitRuns text.data).map String.mk
  if nonDigitRuns text.data ≠ [] then
    Except.error (RowErr.typeErr "m.trim is not a function")
  else
    let nonDigits : List String := []
    if digits.length < 2 then
      Except.error (RowErr.dataErr
        ("Row missing at least two coordinates: \"" ++ text ++ "\""))
    else
      let xStr := (digits.get? 0).getD ""
      let yStr := (digits.get? 1).getD ""
      let x := parseIntDec xStr.data
      let y := parseIntDec yStr.data
      let ch : JStr :=
        if nonDigits.length ≠ 0 then JStr.arr nonDigits else JStr.str " "
      Except.ok ((x, y), ch)

/-- `extractDataFromRows`: fold the rows in order, pushing `[x, y]` and
the character value, failing at the first bad row. -/
def extractDataFromRows (rows : List String) :
    Except RowErr (List (Int × Int) × List JStr) :=
  match rows with
  | [] => Except.ok ([], [])
  | row :: rest => do
    let rc ← rowRecord row
    let tail ← extractDataFromRows rest
    Except.ok (rc.1 :: tail.1, rc.2 :: tail.2)

/-- `Math.max(...)` over a spread list; the pipeline only spreads
non-empty lists (the empty case below is unreachable there). -/
def listMaxD : List Int → Int
  | [] => 0
  | x :: xs => xs.foldl max x

/-- `Math.min`-style counterpart, used to state bounds properties. -/
def listMinD : List Int → Int
  | [] => 0
  | x :: xs => xs.foldl min x

/-- One step of the row-text paint loop: skip any record with
`x < 0 || y < 0 || y >= grid.length || x >= grid[0].length`, otherwise
write `String(ch)` (or a space when that is empty) into `grid[y][x]`. -/
def paintStepRT (g : Grid) (p : (Int × Int) × JStr) : Grid :=
  if p.1.1 < 0 || p.1.2 < 0 || (g.length : Int) ≤ p.1.2 ||
      (gW g : Int) ≤ p.1.1 then g
  else
    let printable := jsString p.2
    setCell g p.1.2.toNat p.1.1.toNat
      (if printable.length > 0 then printable else " ")

/-- The row-text paint loop over all records, in order. -/
def paintRT (g : Grid) (l : List ((Int × Int) × JStr)) : Grid :=
  l.foldl paintStepRT g

/-- The painted grid of the row-text dialect: a
`(max y + 1) × (max x + 1)` grid of spaces with the records painted on. -/
def rtGrid (coords : List (Int × Int)) (chars : List JStr) : Grid :=
  let maxX := listMaxD (coords.map Prod.fst) + 1
  let maxY := listMaxD (coords.map Prod.snd) + 1
  paintRT (mkGrid maxY.toNat maxX.toNat) (coords.zip chars)

/-- `buildAndRenderGrid`: reject a length mismatch, print one empty line
for zero records, reject a non-positive grid size, otherwise paint and
print the rows from the highest index down to row 0. -/
def buildAndRenderGrid (coords : List (Int × Int)) (chars : List JStr) :
    Except RowErr (List String) :=
  if coords.length ≠ chars.length then
    Except.error (RowErr.dataErr "Coordinates and characters length mismatch")
  else if coords.length = 0 then Except.ok [""]
  else
    let maxX := listMaxD (coords.map Prod.fst) + 1
    let maxY := listMaxD (coords.map Prod.snd) + 1
    if maxX ≤ 0 || maxY ≤ 0 then
      Except.error (RowErr.dataErr
        ("Invalid grid size computed: " ++ toString maxX ++ "x" ++
          toString maxY))
    else Except.ok (((rtGrid coords chars).reverse).map rowJoin)

/-- The composed row-text pipeline after row extraction from the HTML:
extract, then build and render. -/
def renderRows (rows : List String) : Except RowErr (List String) := do
  let e ← extractDataFromRows rows
  buildAndRenderGrid e.1 e.2

/-- Apply an optional cell write to a grid. -/
def applyWrite (g : Grid) : Option (Nat × Nat × String) → Grid
  | some wv => setCell g wv.1 wv.2.1 wv.2.2
  | none => g

/-- A paint loop in general form: each record either writes one cell
(at a position computed from the grid's current dimensions) or is
skipped.  Both dialects' loops are instances. -/
def paintWith (f : Nat → Nat → α → Option (Nat × Nat × String))
    (g : Grid) (l : List α) : Grid :=
  l.foldl (fun g p => applyWrite g (f g.length (gW g) p)) g

/-- What one record writes, if `jsString` of its character is non-empty
it is written whole, otherwise a space takes its place. -/
def renderJS (ch : JStr) : String :=
  if (jsString ch).length > 0 then jsString ch else " "

/-- The row-text dialect's write function: skip out-of-bounds records,
write `renderJS` of the character at `[y][x]` otherwise. -/
def fRT (h w : Nat) (p : (Int × Int) × JStr) : Option (Nat × Nat × String) :=
  if p.1.1 < 0 || p.1.2 < 0 || (h : Int) ≤ p.1.2 || (w : Int) ≤ p.1.1 then
    none
  else some (p.1.2.toNat, p.1.1.toNat, renderJS p.2)

/-- The plain-text dialect's write function: always write the record's
character at the bounds-normalized position. -/
def fPT (mX mY : Int) (_h _w : Nat) (r : CharRec) :
    Option (Nat × Nat × String) :=
  some ((r.y - mY).toNat, (r.x - mX).toNat, r.char)

/-- The value a record contributes to cell `(r, c)` of an `h × w` grid
under write function `f`, if any. -/
def hitVal (f : Nat → Nat → α → Option (Nat × Nat × String))
    (h w r c : Nat) (p : α) : Option String :=
  match f h w p with
  | some wv => if wv.1 = r ∧ wv.2.1 = c then some wv.2.2 else none
  | none => none

/-- The row-text in-bounds test, as a predicate on records: the negation
of the skip condition `x < 0 || y < 0 || y >= h || x >= w`. -/
def inBChk (h w : Nat) (p : (Int × Int) × JStr) : Bool :=
  !(p.1.1 < 0 || p.1.2 < 0 || (h : Int) ≤ p.1.2 || (w : Int) ≤ p.1.1)

/-- Does a row-text record target cell `(r, c)` of an `h × w` grid? -/
def hitsRT (h w r c : Nat) (p : (Int × Int) × JStr) : Bool :=
  inBChk h w p && p.1.2.toNat == r && p.1.1.toNat == c

/-- Does a plain-text record target cell `(r, c)` after normalization
by the bounds minima? -/
def hitsPT (mX mY : Int) (r c : Nat) (rec : CharRec) : Bool :=
  (rec.y - mY).toNat == r && (rec.x - mX).toNat == c

/-- A grid all of whose rows have width `w`. -/
def RectW (g : Grid) (w : Nat) : Prop :=
  ∀ i row, g.get? i = some row → row.length = w

/-- The least x-coordinate of a record set (the spec's `minX`). -/
def specMinX (rs : List CharRec) : Int := listMinD (rs.map CharRec.x)

/-- The greatest x-coordinate of a record set (the spec's `maxX`). -/
def specMaxX (rs : List CharRec) : Int := listMaxD (rs.map CharRec.x)

/-- The least y-coordinate of a record set (the spec's `minY`). -/
def specMinY (rs : List CharRec) : Int := listMinD (rs.map CharRec.y)

/-- The greatest y-coordinate of a record set (the spec's `maxY`). -/
def specMaxY (rs : List CharRec) : Int := listMaxD (rs.map CharRec.y)

theorem get?_replicate_lt {α : Type} (a : α) :
    ∀ (n i : Nat), i < n → (List.replicate n a).get? i = some a := by
  intro n
  induction n with
  | zero => intro i h; omega
  | succ m ih =>
    intro i h
    cases i with
    | zero => rfl
    | succ j => exact ih j (by omega)

theorem headD_eq_get? (g : Grid) : g.headD [] = (g.get? 0).getD [] := by
  cases g <;> rfl

theorem length_setCell (g : Grid) (r c : Nat) (v : String) :
    (setCell g r c v).length = g.length := by
  unfold setCell
  cases h : g.get? r <;> simp [List.length_set]

theorem get?_setCell_ne (g : Grid) (r c : Nat) (v : String) (i : Nat)
    (h : r ≠ i) : (setCell g r c v).get? i = g.get? i := by
  unfold setCell
  cases hr : g.get? r with
  | none => rfl
  | some row => exact List.get?_set_ne _ _ h

theorem get?_setCell_self (g : Grid) (r c : Nat) (v : String) (row : List String)
    (h : g.get? r = some row) :
    (setCell g r c v).get? r = some (row.set c v) := by
  unfold setCell
  rw [h]
  have hlt : r < g.length := by
    by_contra hc
    rw [List.get?_eq_none.mpr (by omega)] at h
    exact Option.noConfusion h
  exact List.get?_set_eq_of_lt _ hlt

theorem gW_setCell (g : Grid) (r c : Nat) (v : String) :
    gW (setCell g r c v) = gW g := by
  unfold gW
  rw [headD_eq_get?, headD_eq_get?]
  rcases Nat.eq_zero_or_pos r with hr | hr
  · subst hr
    cases h0 : g.get? 0 with
    | none =>
      have hg : g = [] := by
        cases g with
        | nil => rfl
        | cons a t => exact Option.noConfusion h0
      subst hg
      rfl
    | some row =>
      rw [get?_setCell_self g 0 c v row h0]
      simp [List.length_set]
  · rw [get?_setCell_ne g r c v 0 (by omega)]

theorem RectW_setCell (g : Grid) (w : Nat) (r c : Nat) (v : String)
    (h : RectW g w) : RectW (setCell g r c v) w := by
  intro i row hrow
  rcases Decidable.em (r = i) with he | he
  · subst he
    cases hr : g.get? r with
    | none => unfold setCell at hrow; rw [hr] at hrow; exact h r row hrow
    | some row0 =>
      rw [get?_setCell_self g r c v row0 hr] at hrow
      cases hrow
      rw [List.length_set]
      exact h r row0 hr
  · rw [get?_setCell_ne g r c v i he] at hrow
    exact h i row hrow

theorem length_applyWrite (g : Grid) (o : Option (Nat × Nat × String)) :
    (applyWrite g o).length = g.length := by
  cases o with
  | none => rfl
  | some wv => exact length_setCell g wv.1 wv.2.1 wv.2.2

theorem gW_applyWrite (g : Grid) (o : Option (Nat × Nat × String)) :
    gW (applyWrite g o) = gW g := by
  cases o with
  | none => rfl
  | some wv => exact gW_setCell g wv.1 wv.2.1 wv.2.2

theorem RectW_applyWrite (g : Grid) (w : Nat) (o : Option (Nat × Nat × String))
    (h : RectW g w) : RectW (applyWrite g o) w := by
  cases o with
  | none => exact h
  | some wv => exact RectW_setCell g w wv.1 wv.2.1 wv.2.2 h

theorem length_paintWith {α : Type}
    (f : Nat → Nat → α → Option (Nat × Nat × String)) (l : List α) :
    ∀ g : Grid, (paintWith f g l).length = g.length := by
  induction l with
  | nil => intro g; rfl
  | cons p t ih =>
    intro g
    show (paintWith f (applyWrite g (f g.length (gW g) p)) t).length = _
    rw [ih, length_applyWrite]

theorem gW_paintWith {α : Type}
    (f : Nat → Nat → α → Option (Nat × Nat × String)) (l : List α) :
    ∀ g : Grid, gW (paintWith f g l) = gW g := by
  induction l with
  | nil => intro g; rfl
  | cons p t ih =>
    intro g
    show gW (paintWith f (applyWrite g (f g.length (gW g) p)) t) = _
    rw [ih, gW_applyWrite]

theorem RectW_paintWith {α : Type}
    (f : Nat → Nat → α → Option (Nat × Nat × String)) (l : List α) :
    ∀ g : Grid, ∀ w, RectW g w → RectW (paintWith f g l) w := by
  induction l with
  | nil => intro g w h; exact h
  | cons p t ih =>
    intro g w h
    exact ih _ w (RectW_applyWrite g w _ h)

theorem paintStepRT_eq (g : Grid) (p : (Int × Int) × JStr) :
    paintStepRT g p = applyWrite g (fRT g.length (gW g) p) := by
  unfold paintStepRT fRT applyWrite renderJS
  split <;> rfl

theorem paintRT_eq_paintWith (l : List ((Int × Int) × JStr)) :
    ∀ g : Grid, paintRT g l = paintWith fRT g l := by
  induction l with
  | nil => intro g; rfl
  | cons p t ih =>
    intro g
    show paintRT (paintStepRT g p) t = _
    rw [ih, paintStepRT_eq]
    rfl

theorem paintPT_eq_paintWith (mX mY : Int) (rs : List CharRec) :
    ∀ g : Grid, paintPT g rs mX mY = paintWith (fPT mX mY) g rs := by
  induction rs with
  | nil => intro g; rfl
  | cons r t ih =>
    intro g
    show paintPT (setCell g (r.y - mY).toNat (r.x - mX).toNat r.char) t mX mY = _
    rw [ih]
    rfl

theorem setCell_of_none (g : Grid) (r c : Nat) (v : String)
    (h : g.get? r = none) : setCell g r c v = g := by
  unfold setCell
  rw [h]

theorem cellAt_setCell_self (g : Grid) (r c : Nat) (v : String)
    (row : List String) (h : g.get? r = some row) (hc : c < row.length) :
    cellAt (setCell g r c v) r c = some v := by
  unfold cellAt
  rw [get?_setCell_self g r c v row h]
  show (row.set c v).get? c = some v
  exact List.get?_set_eq_of_lt v hc

theorem cellAt_setCell_ne (g : Grid) (r' c' r c : Nat) (v : String)
    (h : r' ≠ r ∨ c' ≠ c) :
    cellAt (setCell g r' c' v) r c = cellAt g r c := by
  unfold cellAt
  rcases Decidable.em (r' = r) with he | he
  · subst he
    rcases h with h | h
    · exact absurd rfl h
    · cases hr : g.get? r' with
      | none => rw [setCell_of_none g r' c' v hr, hr]
      | some row =>
        rw [get?_setCell_self g r' c' v row hr]
        show (row.set c' v).get? c = (some row).bind fun row => row.get? c
        rw [List.get?_set_ne v row h]
        rfl
  · rw [get?_setCell_ne g r' c' v r he]

theorem getLast?_cons_eq {α : Type} (x : α) (l : List α) :
    (x :: l).getLast? = some ((l.getLast?).getD x) := by
  induction l generalizing x with
  | nil => rfl
  | cons b t ih =>
    rw [List.getLast?_cons_cons, ih b]
    rfl

theorem hitVal_some {α : Type}
    (f : Nat → Nat → α → Option (Nat × Nat × String)) (h w r c : Nat)
    (p : α) (v : String) (hv : hitVal f h w r c p = some v) :
    f h w p = some (r, c, v) := by
  unfold hitVal at hv
  cases hf : f h w p with
  | none => rw [hf] at hv; exact Option.noConfusion hv
  | some wv =>
    rw [hf] at hv
    change (if wv.1 = r ∧ wv.2.1 = c then some wv.2.2 else none) = some v at hv
    by_cases hrc : wv.1 = r ∧ wv.2.1 = c
    · rw [if_pos hrc] at hv
      cases hv
      rw [← hrc.1, ← hrc.2]
    · rw [if_neg hrc] at hv
      exact Option.noConfusion hv

theorem cellAt_applyWrite_of_miss {α : Type}
    (f : Nat → Nat → α → Option (Nat × Nat × String)) (h w r c : Nat)
    (p : α) (g : Grid) (hv : hitVal f h w r c p = none) :
    cellAt (applyWrite g (f h w p)) r c = cellAt g r c := by
  unfold hitVal at hv
  cases hf : f h w p with
  | none => rfl
  | some wv =>
    rw [hf] at hv
    change (if wv.1 = r ∧ wv.2.1 = c then some wv.2.2 else none) = none at hv
    by_cases hrc : wv.1 = r ∧ wv.2.1 = c
    · rw [if_pos hrc] at hv; exact Option.noConfusion hv
    · show cellAt (setCell g wv.1 wv.2.1 wv.2.2) r c = cellAt g r c
      apply cellAt_setCell_ne
      by_cases h1 : wv.1 = r
      · exact Or.inr (fun h2 => hrc ⟨h1, h2⟩)
      · exact Or.inl h1

theorem paintWith_cellAt {α : Type}
    (f : Nat → Nat → α → Option (Nat × Nat × String)) (l : List α) :
    ∀ g : Grid, RectW g (gW g) →
    (∀ p ∈ l, ∀ r' c' v, f g.length (gW g) p = some (r', c', v) →
      r' < g.length ∧ c' < gW g) →
    ∀ r c, cellAt (paintWith f g l) r c =
      ((l.filterMap (hitVal f g.length (gW g) r c)).getLast?).elim
        (cellAt g r c) some := by
  induction l with
  | nil => intro g _ _ r c; rfl
  | cons p t ih =>
    intro g hrect hrange r c
    have hdl : (applyWrite g (f g.length (gW g) p)).length = g.length :=
      length_applyWrite g _
    have hdw : gW (applyWrite g (f g.length (gW g) p)) = gW g :=
      gW_applyWrite g _
    have hrect' :
        RectW (applyWrite g (f g.length (gW g) p))
          (gW (applyWrite g (f g.length (gW g) p))) := by
      rw [hdw]
      exact RectW_applyWrite g (gW g) _ hrect
    have hrange' : ∀ q ∈ t, ∀ r' c' v,
        f (applyWrite g (f g.length (gW g) p)).length
          (gW (applyWrite g (f g.length (gW g) p))) q = some (r', c', v) →
        r' < (applyWrite g (f g.length (gW g) p)).length ∧
        c' < gW (applyWrite g (f g.length (gW g) p)) := by
      intro q hq r' c' v
      rw [hdl, hdw]
      exact hrange q (List.mem_cons_of_mem p hq) r' c' v
    have hstep : paintWith f g (p :: t) =
        paintWith f (applyWrite g (f g.length (gW g) p)) t := rfl
    rw [hstep, ih _ hrect' hrange' r c, hdl, hdw]
    cases hv : hitVal f g.length (gW g) r c p with
    | none =>
      rw [List.filterMap_cons_none hv,
        cellAt_applyWrite_of_miss f g.length (gW g) r c p g hv]
    | some v =>
      rw [List.filterMap_cons_some hv, getLast?_cons_eq]
      have hf : f g.length (gW g) p = some (r, c, v) :=
        hitVal_some f g.length (gW g) r c p v hv
      have hrc : r < g.length ∧ c < gW g :=
        hrange p (List.mem_cons_self p t) r c v hf
      have hcell : cellAt (applyWrite g (f g.length (gW g) p)) r c = some v := by
        rw [hf]
        obtain ⟨row, hrow⟩ : ∃ row, g.get? r = some row := by
          cases hg : g.get? r with
          | none =>
            rw [List.get?_eq_none] at hg
            omega
          | some row => exact ⟨row, rfl⟩
        exact cellAt_setCell_self g r c v row hrow
          (by rw [hrect r row hrow]; exact hrc.2)
      cases hgl : (t.filterMap (hitVal f g.length (gW g) r c)).getLast? with
      | none => simpa using hcell
      | some wv => rfl

theorem paintWith_filter {α : Type}
    (f : Nat → Nat → α → Option (Nat × Nat × String)) (keep : α → Bool)
    (l : List α) :
    ∀ g : Grid, (∀ p, keep p = false → f g.length (gW g) p = none) →
    paintWith f g (l.filter keep) = paintWith f g l := by
  induction l with
  | nil => intro g _; rfl
  | cons p t ih =>
    intro g h
    cases hk : keep p with
    | true =>
      rw [List.filter_cons_of_pos hk]
      show paintWith f (applyWrite g (f g.length (gW g) p)) (t.filter keep) =
        paintWith f (applyWrite g (f g.length (gW g) p)) t
      apply ih
      intro q hq
      rw [length_applyWrite, gW_applyWrite]
      exact h q hq
    | false =>
      rw [List.filter_cons_of_neg (by simp [hk])]
      have hg : applyWrite g (f g.length (gW g) p) = g := by
        rw [h p hk]
        rfl
      show paintWith f g (t.filter keep) =
        paintWith f (applyWrite g (f g.length (gW g) p)) t
      rw [hg]
      exact ih g h

theorem filterMap_eq_filter_map {α β : Type} (hv : α → Option β)
    (keep : α → Bool) (vf : α → β)
    (hcomp : ∀ p, hv p = if keep p then some (vf p) else none) :
    ∀ l : List α, l.filterMap hv = (l.filter keep).map vf := by
  intro l
  induction l with
  | nil => rfl
  | cons p t ih =>
    cases hk : keep p with
    | true =>
      have hvp : hv p = some (vf p) := by rw [hcomp p]; simp [hk]
      rw [List.filterMap_cons_some hvp, List.filter_cons_of_pos hk,
        List.map_cons, ih]
    | false =>
      have hvp : hv p = none := by rw [hcomp p]; simp [hk]
      rw [List.filterMap_cons_none hvp,
        List.filter_cons_of_neg (by simp [hk])]
      exact ih

theorem foldl_jmin_rec (f : CharRec → Int) (t : List CharRec) :
    ∀ a : Int, t.foldl (fun acc rec => acc.jmin (JNum.fin (f rec))) (JNum.fin a) =
      JNum.fin ((t.map f).foldl min a) := by
  induction t with
  | nil => intro a; rfl
  | cons r u ih => intro a; exact ih (min a (f r))

theorem foldl_jmax_rec (f : CharRec → Int) (t : List CharRec) :
    ∀ a : Int, t.foldl (fun acc rec => acc.jmax (JNum.fin (f rec))) (JNum.fin a) =
      JNum.fin ((t.map f).foldl max a) := by
  induction t with
  | nil => intro a; rfl
  | cons r u ih => intro a; exact ih (max a (f r))

theorem boundsOf_foldl (rs : List CharRec) : ∀ acc : BoundsJ,
    rs.foldl boundsStep acc =
      ⟨rs.foldl (fun a r => a.jmin (JNum.fin r.x)) acc.minX,
       rs.foldl (fun a r => a.jmax (JNum.fin r.x)) acc.maxX,
       rs.foldl (fun a r => a.jmin (JNum.fin r.y)) acc.minY,
       rs.foldl (fun a r => a.jmax (JNum.fin r.y)) acc.maxY⟩ := by
  induction rs with
  | nil => intro acc; rfl
  | cons r t ih => intro acc; exact ih (boundsStep acc r)

theorem boundsOf_cons (r : CharRec) (t : List CharRec) :
    boundsOf (r :: t) =
      ⟨JNum.fin (specMinX (r :: t)), JNum.fin (specMaxX (r :: t)),
       JNum.fin (specMinY (r :: t)), JNum.fin (specMaxY (r :: t))⟩ := by
  show (r :: t).foldl boundsStep boundsInit = _
  rw [boundsOf_foldl (r :: t) boundsInit]
  have h1 : (r :: t).foldl (fun a rec => a.jmin (JNum.fin rec.x)) boundsInit.minX
      = JNum.fin (specMinX (r :: t)) := by
    show t.foldl (fun a rec => a.jmin (JNum.fin rec.x)) (JNum.fin r.x) = _
    rw [foldl_jmin_rec CharRec.x t r.x]
    rfl
  have h2 : (r :: t).foldl (fun a rec => a.jmax (JNum.fin rec.x)) boundsInit.maxX
      = JNum.fin (specMaxX (r :: t)) := by
    show t.foldl (fun a rec => a.jmax (JNum.fin rec.x)) (JNum.fin r.x) = _
    rw [foldl_jmax_rec CharRec.x t r.x]
    rfl
  have h3 : (r :: t).foldl (fun a rec => a.jmin (JNum.fin rec.y)) boundsInit.minY
      = JNum.fin (specMinY (r :: t)) := by
    show t.foldl (fun a rec => a.jmin (JNum.fin rec.y)) (JNum.fin r.y) = _
    rw [foldl_jmin_rec CharRec.y t r.y]
    rfl
  have h4 : (r :: t).foldl (fun a rec => a.jmax (JNum.fin rec.y)) boundsInit.maxY
      = JNum.fin (specMaxY (r :: t)) := by
    show t.foldl (fun a rec => a.jmax (JNum.fin rec.y)) (JNum.fin r.y) = _
    rw [foldl_jmax_rec CharRec.y t r.y]
    rfl
  rw [h1, h2, h3, h4]

theorem init_le_foldl_max (xs : List Int) :
    ∀ a : Int, a ≤ xs.foldl max a := by
  induction xs with
  | nil => intro a; exact le_refl a
  | cons x t ih =>
    intro a
    exact le_trans (le_max_left a x) (ih (max a x))

theorem foldl_min_le_init (xs : List Int) :
    ∀ a : Int, xs.foldl min a ≤ a := by
  induction xs with
  | nil => intro a; exact le_refl a
  | cons x t ih =>
    intro a
    exact le_trans (ih (min a x)) (min_le_left a x)

theorem mem_le_foldl_max (xs : List Int) (x : Int) (h : x ∈ xs) :
    ∀ a : Int, x ≤ xs.foldl max a := by
  induction xs with
  | nil => exact absurd h (List.not_mem_nil x)
  | cons y t ih =>
    intro a
    rcases List.mem_cons.mp h with he | hm
    · subst he
      exact le_trans (le_max_right a x) (init_le_foldl_max t (max a x))
    · exact ih hm (max a y)

theorem foldl_min_le_mem (xs : List Int) (x : Int) (h : x ∈ xs) :
    ∀ a : Int, xs.foldl min a ≤ x := by
  induction xs with
  | nil => exact absurd h (List.not_mem_nil x)
  | cons y t ih =>
    intro a
    rcases List.mem_cons.mp h with he | hm
    · subst he
      exact le_trans (foldl_min_le_init t (min a x)) (min_le_right a x)
    · exact ih hm (min a y)

theorem le_listMaxD (xs : List Int) (x : Int) (h : x ∈ xs) :
    x ≤ listMaxD xs := by
  cases xs with
  | nil => exact absurd h (List.not_mem_nil x)
  | cons y t =>
    rcases List.mem_cons.mp h with he | hm
    · subst he
      exact init_le_foldl_max t x
    · exact mem_le_foldl_max t x hm y

theorem listMinD_le (xs : List Int) (x : Int) (h : x ∈ xs) :
    listMinD xs ≤ x := by
  cases xs with
  | nil => exact absurd h (List.not_mem_nil x)
  | cons y t =>
    rcases List.mem_cons.mp h with he | hm
    · subst he
      exact foldl_min_le_init t x
    · exact foldl_min_le_mem t x hm y

theorem runsByCons_ne_nil (p : Char → Bool) (c : Char) (rest : List Char)
    (t : List (List Char)) (hc : p c = true) :
    runsByCons p c rest t ≠ [] := by
  unfold runsByCons
  rw [if_pos hc]
  cases t with
  | nil =>
    cases rest with
    | nil => exact fun h => List.noConfusion h
    | cons r rr => exact fun h => List.noConfusion h
  | cons run more =>
    cases rest with
    | nil => exact fun h => List.noConfusion h
    | cons r rr =>
      change (if p r = true then (c :: run) :: more else [c] :: run :: more) ≠ []
      by_cases hr : p r = true
      · rw [if_pos hr]
        exact fun h => List.noConfusion h
      · rw [if_neg hr]
        exact fun h => List.noConfusion h

theorem runsBy_eq_nil_iff (p : Char → Bool) (s : List Char) :
    runsBy p s = [] ↔ ∀ c ∈ s, p c = false := by
  induction s with
  | nil => simp [runsBy]
  | cons c rest ih =>
    show runsByCons p c rest (runsBy p rest) = [] ↔ _
    by_cases hc : p c = true
    · constructor
      · intro h
        exact absurd h (runsByCons_ne_nil p c rest (runsBy p rest) hc)
      · intro h
        have := h c (List.mem_cons_self c rest)
        rw [hc] at this
        exact Bool.noConfusion this
    · have hc' : p c = false := by
        cases hpc : p c with
        | true => exact absurd hpc hc
        | false => rfl
      have hstep : runsByCons p c rest (runsBy p rest) = runsBy p rest := by
        unfold runsByCons
        rw [if_neg hc]
      rw [hstep]
      constructor
      · intro h d hd
        rcases List.mem_cons.mp hd with he | hm
        · subst he; exact hc'
        · exact ih.mp h d hm
      · intro h
        exact ih.mpr (fun d hd => h d (List.mem_cons_of_mem c hd))

theorem runsBy_all_true (p : Char → Bool) :
    ∀ s : List Char, (∀ c ∈ s, p c = true) →
    runsBy p s = [] ∨ ∃ run, runsBy p s = [run] := by
  intro s
  induction s with
  | nil => intro _; exact Or.inl rfl
  | cons c rest ih =>
    intro h
    have hc : p c = true := h c (List.mem_cons_self c rest)
    right
    show ∃ run, runsByCons p c rest (runsBy p rest) = [run]
    cases rest with
    | nil =>
      refine ⟨[c], ?_⟩
      unfold runsByCons
      rw [if_pos hc]
      rfl
    | cons r rr =>
      have hr : p r = true :=
        h r (List.mem_cons_of_mem c (List.mem_cons_self r rr))
      have hrest : ∀ d ∈ r :: rr, p d = true :=
        fun d hd => h d (List.mem_cons_of_mem c hd)
      rcases ih hrest with hnil | ⟨run, hrun⟩
      · exfalso
        have := (runsBy_eq_nil_iff p (r :: rr)).mp hnil r (List.mem_cons_self r rr)
        rw [hr] at this
        exact Bool.noConfusion this
      · refine ⟨c :: run, ?_⟩
        unfold runsByCons
        rw [if_pos hc, hrun]
        change (if p r = true then (c :: run) :: ([] : List (List Char))
          else [c] :: run :: []) = [c :: run]
        rw [if_pos hr]

theorem digitRuns_le_one_of_nonDigit_nil (text : List Char)
    (h : nonDigitRuns text = []) : (digitRuns text).length ≤ 1 := by
  have hall : ∀ c ∈ text, isDigitJS c = true := by
    intro c hc
    have := (runsBy_eq_nil_iff (fun c => !(isDigitJS c)) text).mp h c hc
    cases hd : isDigitJS c with
    | true => rfl
    | false => rw [hd] at this; exact Bool.noConfusion this
  rcases runsBy_all_true isDigitJS text hall with hnil | ⟨run, hrun⟩
  · unfold digitRuns
    rw [hnil]
    exact Nat.zero_le 1
  · unfold digitRuns
    rw [hrun]
    exact le_refl 1

theorem rowRecord_ne_ok (text : String) (v : (Int × Int) × JStr) :
    rowRecord text ≠ Except.ok v := by
  intro h
  unfold rowRecord at h
  by_cases hnd : nonDigitRuns text.data ≠ []
  · rw [if_pos hnd] at h
    exact Except.noConfusion h
  · rw [if_neg hnd] at h
    have hnd' : nonDigitRuns text.data = [] := by
      by_contra hc
      exact hnd hc
    have hlen : ((digitRuns text.data).map String.mk).length < 2 := by
      rw [List.length_map]
      have := digitRuns_le_one_of_nonDigit_nil text.data hnd'
      omega
    rw [if_pos hlen] at h
    exact Except.noConfusion h

theorem extract_ok_iff (rows : List String)
    (v : List (Int × Int) × List JStr) :
    extractDataFromRows rows = Except.ok v ↔ rows = [] ∧ v = ([], []) := by
  cases rows with
  | nil =>
    constructor
    · intro h
      refine ⟨rfl, ?_⟩
      cases h
      rfl
    · intro h
      rw [h.2]
      rfl
  | cons row rest =>
    constructor
    · intro h
      exfalso
      unfold extractDataFromRows at h
      cases hr : rowRecord row with
      | error e =>
        rw [hr] at h
        exact Except.noConfusion h
      | ok rc => exact rowRecord_ne_ok row rc hr
    · intro h
      exact List.noConfusion h.1

theorem length_mkRow (w : Nat) : (mkRow w).length = w :=
  List.length_replicate w " "

theorem length_mkGrid (h w : Nat) : (mkGrid h w).length = h :=
  List.length_replicate h (mkRow w)

theorem get?_mkGrid (h w i : Nat) (hi : i < h) :
    (mkGrid h w).get? i = some (mkRow w) :=
  get?_replicate_lt (mkRow w) h i hi

theorem gW_mkGrid (h w : Nat) (hh : 0 < h) : gW (mkGrid h w) = w := by
  unfold gW
  rw [headD_eq_get?, get?_mkGrid h w 0 hh]
  exact length_mkRow w

theorem RectW_mkGrid (h w : Nat) : RectW (mkGrid h w) w := by
  intro i row hrow
  have hi : i < h := by
    by_contra hc
    rw [List.get?_eq_none.mpr (by rw [length_mkGrid]; omega)] at hrow
    exact Option.noConfusion hrow
  rw [get?_mkGrid h w i hi] at hrow
  cases hrow
  exact length_mkRow w

theorem cellAt_mkGrid (h w r c : Nat) (hr : r < h) (hc : c < w) :
    cellAt (mkGrid h w) r c = some " " := by
  unfold cellAt
  rw [get?_mkGrid h w r hr]
  show (mkRow w).get? c = some " "
  exact get?_replicate_lt " " w c hc

theorem decode_ok (content : String) (hne : parseCharacters content ≠ []) :
    decodeSecretMessage content =
      Except.ok ((ptGrid (parseCharacters content)).map rowJoin) := by
  unfold decodeSecretMessage
  rw [if_neg hne]

theorem decode_noData_iff (content : String) :
    decodeSecretMessage content = Except.error PErr.noData ↔
      parseCharacters content = [] := by
  unfold decodeSecretMessage
  by_cases h : parseCharacters content = []
  · rw [if_pos h]
    exact ⟨fun _ => h, fun _ => rfl⟩
  · rw [if_neg h]
    exact ⟨fun hc => Except.noConfusion hc, fun hc => absurd hc h⟩

theorem ptGrid_eq (rs : List CharRec) :
    ptGrid rs =
      paintPT
        (mkGrid ((boundsOf rs).maxY.toIntD - (boundsOf rs).minY.toIntD + 1).toNat
          ((boundsOf rs).maxX.toIntD - (boundsOf rs).minX.toIntD + 1).toNat)
        rs (boundsOf rs).minX.toIntD (boundsOf rs).minY.toIntD := rfl

theorem specMinX_le_specMaxX (r : CharRec) (t : List CharRec) :
    specMinX (r :: t) ≤ specMaxX (r :: t) := by
  have hm : r.x ∈ (r :: t).map CharRec.x := by
    rw [List.map_cons]
    exact List.mem_cons_self _ _
  exact le_trans (listMinD_le _ _ hm) (le_listMaxD _ _ hm)

theorem specMinY_le_specMaxY (r : CharRec) (t : List CharRec) :
    specMinY (r :: t) ≤ specMaxY (r :: t) := by
  have hm : r.y ∈ (r :: t).map CharRec.y := by
    rw [List.map_cons]
    exact List.mem_cons_self _ _
  exact le_trans (listMinD_le _ _ hm) (le_listMaxD _ _ hm)

theorem ptGrid_length (rs : List CharRec) (hne : rs ≠ []) :
    ((ptGrid rs).length : Int) = specMaxY rs - specMinY rs + 1 := by
  cases rs with
  | nil => exact absurd rfl hne
  | cons r t =>
    rw [ptGrid_eq, paintPT_eq_paintWith, length_paintWith, length_mkGrid,
      boundsOf_cons r t]
    show (((specMaxY (r :: t)) - (specMinY (r :: t)) + 1).toNat : Int) = _
    rw [Int.toNat_of_nonneg (by have := specMinY_le_specMaxY r t; omega)]

theorem ptGrid_RectW (rs : List CharRec) :
    RectW (ptGrid rs)
      ((boundsOf rs).maxX.toIntD - (boundsOf rs).minX.toIntD + 1).toNat := by
  rw [ptGrid_eq, paintPT_eq_paintWith]
  exact RectW_paintWith _ rs _ _ (RectW_mkGrid _ _)

theorem ptGrid_rowlen (rs : List CharRec) (hne : rs ≠ []) :
    ∀ row ∈ ptGrid rs, (row.length : Int) = specMaxX rs - specMinX rs + 1 := by
  intro row hrow
  obtain ⟨i, hi⟩ := List.mem_iff_get?.mp hrow
  have hl := ptGrid_RectW rs i row hi
  cases rs with
  | nil => exact absurd rfl hne
  | cons r t =>
    rw [boundsOf_cons r t] at hl
    rw [hl]
    show (((specMaxX (r :: t)) - (specMinX (r :: t)) + 1).toNat : Int) = _
    rw [Int.toNat_of_nonneg (by have := specMinX_le_specMaxX r t; omega)]

theorem rtGrid_eq (coords : List (Int × Int)) (chars : List JStr) :
    rtGrid coords chars =
      paintRT
        (mkGrid (listMaxD (coords.map Prod.snd) + 1).toNat
          (listMaxD (coords.map Prod.fst) + 1).toNat)
        (coords.zip chars) := rfl

theorem build_ok_inv (coords : List (Int × Int)) (chars : List JStr)
    (lines : List String) (hne : coords ≠ [])
    (h : buildAndRenderGrid coords chars = Except.ok lines) :
    coords.length = chars.length ∧
    0 < listMaxD (coords.map Prod.fst) + 1 ∧
    0 < listMaxD (coords.map Prod.snd) + 1 ∧
    lines = ((rtGrid coords chars).reverse).map rowJoin := by
  unfold buildAndRenderGrid at h
  by_cases h1 : coords.length ≠ chars.length
  · rw [if_pos h1] at h
    exact Except.noConfusion h
  · rw [if_neg h1] at h
    have h2 : ¬(coords.length = 0) := by
      intro hc
      exact hne (List.length_eq_zero.mp hc)
    rw [if_neg h2] at h
    by_cases h3 : (decide (listMaxD (coords.map Prod.fst) + 1 ≤ 0) ||
        decide (listMaxD (coords.map Prod.snd) + 1 ≤ 0)) = true
    · rw [if_pos h3] at h
      exact Except.noConfusion h
    · rw [if_neg h3] at h
      simp only [Bool.or_eq_true, decide_eq_true_eq, not_or] at h3
      cases h
      refine ⟨by omega, by omega, by omega, rfl⟩

theorem build_ok_of (coords : List (Int × Int)) (chars : List JStr)
    (hne : coords ≠ []) (hlen : coords.length = chars.length)
    (hx : 0 < listMaxD (coords.map Prod.fst) + 1)
    (hy : 0 < listMaxD (coords.map Prod.snd) + 1) :
    buildAndRenderGrid coords chars =
      Except.ok (((rtGrid coords chars).reverse).map rowJoin) := by
  unfold buildAndRenderGrid
  rw [if_neg (by omega)]
  rw [if_neg (by
    intro hc
    exact hne (List.length_eq_zero.mp hc))]
  rw [if_neg (by
    simp only [Bool.or_eq_true, decide_eq_true_eq, not_or]
    omega)]

/-- C1: in the plain-text dialect the input lines `"A 3 4"`, `"B, 1, 2"`
and `"C 0 0"` parse to three records with coordinates (3,4), (1,2) and
(0,0), the bounds reduce yields minX=0, maxX=3, minY=0, maxY=4, and the
painted grid is the 5-row by 4-column grid with "A" at row 4 column 3,
"B" at row 2 column 1, "C" at row 0 column 0, and every other cell the
space fill character. -/
theorem c1_plain_example :
    parseCharacters "A 3 4\nB, 1, 2\nC 0 0" =
      [⟨"A", 3, 4⟩, ⟨"B", 1, 2⟩, ⟨"C", 0, 0⟩] ∧
    boundsOf (parseCharacters "A 3 4\nB, 1, 2\nC 0 0") =
      ⟨JNum.fin 0, JNum.fin 3, JNum.fin 0, JNum.fin 4⟩ ∧
    ptGrid (parseCharacters "A 3 4\nB, 1, 2\nC 0 0") =
      [["C", " ", " ", " "],
       [" ", " ", " ", " "],
       [" ", "B", " ", " "],
       [" ", " ", " ", " "],
       [" ", " ", " ", "A"]] ∧
    decodeSecretMessage "A 3 4\nB, 1, 2\nC 0 0" =
      Except.ok ["C   ", "    ", " B  ", "    ", "   A"] := by
  exact ⟨rfl, rfl, rfl, rfl⟩

/-- C2 (counterexample to the claimed character field): the row text
`"X 0 0"` has two digit runs, yet `extractDataFromRows` produces no
record at all — the `.map(m => m.trim())` over the non-digit matches
calls `trim` on a match array and raises a `TypeError` before the
character field is ever assembled. -/
theorem c2_char_field_typeerror :
    (digitRuns "X 0 0".data).length = 2 ∧
    nonDigitRuns "X 0 0".data ≠ [] ∧
    extractDataFromRows ["X 0 0"] =
      Except.error (RowErr.typeErr "m.trim is not a function") := by
  refine ⟨rfl, ?_, rfl⟩
  intro h
  exact List.noConfusion h

/-- C3 (the composed example fails): extracting the rows `"X 0 0"` and
`"Y 1 1"` raises the `TypeError` of the non-digit-run `trim` call, so the
pipeline renders nothing; the renderer itself, fed the two records the
spec intends, does emit the 2×2 grid bottom-to-top — the y=1 line
(holding "Y") first and the y=0 line (with "X" at column 0) last. -/
theorem c3_bottom_up_render :
    extractDataFromRows ["X 0 0", "Y 1 1"] =
      Except.error (RowErr.typeErr "m.trim is not a function") ∧
    buildAndRenderGrid [(0, 0), (1, 1)] [JStr.str "X", JStr.str "Y"] =
      Except.ok [" Y", "X "] := by
  exact ⟨rfl, rfl⟩

/-- C4 (counterexample to the validation error): the row text `"X 5"`
yields a single digit run, but extraction fails with the `TypeError` of
the non-digit-run `trim` call — not with the `DataError` naming the row
text; only a row whose text is entirely digits, such as `"7"`, reaches
the claimed validation error. -/
theorem c4_validation_error_preempted :
    (digitRuns "X 5".data).length = 1 ∧
    extractDataFromRows ["X 5"] =
      Except.error (RowErr.typeErr "m.trim is not a function") ∧
    extractDataFromRows ["7"] =
      Except.error
        (RowErr.dataErr "Row missing at least two coordinates: \"7\"") := by
  exact ⟨rfl, rfl, rfl⟩

/-- C8: with zero records the row-text render stage emits exactly one
empty line and raises no error: extraction of an empty row list succeeds
with empty coordinate and character lists, and both the render stage and
the composed pipeline produce the single empty line. -/
theorem c8_empty_single_blank_line :
    extractDataFromRows [] = Except.ok ([], []) ∧
    buildAndRenderGrid [] [] = Except.ok [""] ∧
    renderRows [] = Except.ok [""] := by
  exact ⟨rfl, rfl, rfl⟩

/-- C6: in the plain-text dialect a line that matches none of the three
patterns yields no record (and the total parsing function raises no
error), and the pipeline fails with the no-data error exactly when the
parsed record set is empty. -/
theorem c6_silent_drop_noData :
    (∀ line : List Char,
      searchMatch pat1 line = none → searchMatch pat2 line = none →
      searchMatch pat3 line = none → lineRecord line = none) ∧
    (∀ content : String,
      decodeSecretMessage content = Except.error PErr.noData ↔
        parseCharacters content = []) := by
  constructor
  · intro line h1 h2 h3
    unfold lineRecord
    rw [h1, h2, h3]
  · exact decode_noData_iff

/-- Witness for C6 at the line `"!!!"` (which no pattern matches) and
the content `"hello"` (which parses to no records). -/
theorem c6_silent_drop_noData_witness :
    lineRecord "!!!".data = none ∧
    (decodeSecretMessage "hello" = Except.error PErr.noData ↔
      parseCharacters "hello" = []) :=
  ⟨c6_silent_drop_noData.1 "!!!".data rfl rfl rfl,
   c6_silent_drop_noData.2 "hello"⟩

/-- C7: the row-text rasterizer skips every out-of-bounds record without
error, never changes the grid's dimensions, and paints exactly the
in-bounds records: painting a list is painting its in-bounds sublist. -/
theorem c7_oob_skipped :
    ∀ (g : Grid) (l : List ((Int × Int) × JStr)),
      ((paintRT g l).length = g.length ∧ gW (paintRT g l) = gW g) ∧
      paintRT g l = paintRT g (l.filter (inBChk g.length (gW g))) := by
  intro g l
  constructor
  · rw [paintRT_eq_paintWith]
    exact ⟨length_paintWith fRT l g, gW_paintWith fRT l g⟩
  · rw [paintRT_eq_paintWith, paintRT_eq_paintWith]
    refine (paintWith_filter fRT (inBChk g.length (gW g)) l g ?_).symm
    intro p hp
    unfold fRT
    cases hb : (p.1.1 < 0 || p.1.2 < 0 || (g.length : Int) ≤ p.1.2 ||
        (gW g : Int) ≤ p.1.1 : Bool) with
    | true => simp [hb]
    | false =>
      exfalso
      unfold inBChk at hp
      rw [hb] at hp
      exact Bool.noConfusion hp

theorem RectW_mkGrid_gW (h w : Nat) : RectW (mkGrid h w) (gW (mkGrid h w)) := by
  cases h with
  | zero =>
    intro i row hrow
    cases i <;> exact Option.noConfusion hrow
  | succ m =>
    rw [gW_mkGrid (m + 1) w (Nat.succ_pos m)]
    exact RectW_mkGrid (m + 1) w

theorem fRT_range (h w : Nat) (p : (Int × Int) × JStr) (r' c' : Nat)
    (v : String) (hf : fRT h w p = some (r', c', v)) : r' < h ∧ c' < w := by
  unfold fRT at hf
  cases hb : (p.1.1 < 0 || p.1.2 < 0 || (h : Int) ≤ p.1.2 ||
      (w : Int) ≤ p.1.1 : Bool) with
  | true =>
    rw [hb] at hf
    simp at hf
  | false =>
    rw [hb] at hf
    simp only [Bool.false_eq_true, if_false] at hf
    cases hf
    simp only [Bool.or_eq_false_iff, decide_eq_false_iff_not, not_lt,
      not_le] at hb
    omega

theorem getLast?_map {α β : Type} (f : α → β) (l : List α) :
    (l.map f).getLast? = (l.getLast?).map f := by
  induction l with
  | nil => rfl
  | cons x t ih =>
    rw [List.map_cons, getLast?_cons_eq, getLast?_cons_eq, ih]
    cases htl : t.getLast? <;> rfl

theorem hitVal_fPT (mX mY : Int) (h w r c : Nat) (rec : CharRec) :
    hitVal (fPT mX mY) h w r c rec =
      if hitsPT mX mY r c rec then some rec.char else none := by
  unfold hitVal fPT hitsPT
  change (if (rec.y - mY).toNat = r ∧ (rec.x - mX).toNat = c
    then some rec.char else none) = _
  by_cases h1 : (rec.y - mY).toNat = r
  · by_cases h2 : (rec.x - mX).toNat = c
    · simp [h1, h2]
    · simp [h1, h2]
  · simp [h1]

theorem hitVal_fRT (h w r c : Nat) (p : (Int × Int) × JStr) :
    hitVal fRT h w r c p =
      if hitsRT h w r c p then some (renderJS p.2) else none := by
  unfold hitVal fRT hitsRT inBChk
  cases hb : (p.1.1 < 0 || p.1.2 < 0 || (h : Int) ≤ p.1.2 ||
      (w : Int) ≤ p.1.1 : Bool) with
  | true => simp [hb]
  | false =>
    by_cases h1 : p.1.2.toNat = r
    · by_cases h2 : p.1.1.toNat = c
      · simp [h1, h2]
      · simp [h1, h2]
    · simp [h1]

/-- C5: for every non-empty record set the grid has exactly
`maxY-minY+1` rows and `maxX-minX+1` columns in the plain-text dialect,
and exactly `maxY+1` rows and `maxX+1` columns in the row-text dialect,
the max/min values being the componentwise extremes of the record
coordinates. -/
theorem c5_grid_dimensions :
    (∀ content : String, parseCharacters content ≠ [] →
      decodeSecretMessage content =
        Except.ok ((ptGrid (parseCharacters content)).map rowJoin) ∧
      ((ptGrid (parseCharacters content)).length : Int) =
        specMaxY (parseCharacters content) -
          specMinY (parseCharacters content) + 1 ∧
      ∀ row ∈ ptGrid (parseCharacters content),
        (row.length : Int) =
          specMaxX (parseCharacters content) -
            specMinX (parseCharacters content) + 1) ∧
    (∀ (coords : List (Int × Int)) (chars : List JStr) (lines : List String),
      coords ≠ [] →
      buildAndRenderGrid coords chars = Except.ok lines →
      (lines.length : Int) = listMaxD (coords.map Prod.snd) + 1 ∧
      ∀ row ∈ rtGrid coords chars,
        (row.length : Int) = listMaxD (coords.map Prod.fst) + 1) := by
  constructor
  · intro content hne
    exact ⟨decode_ok content hne, ptGrid_length _ hne, ptGrid_rowlen _ hne⟩
  · intro coords chars lines hne hok
    obtain ⟨hlen, hx, hy, hlines⟩ := build_ok_inv coords chars lines hne hok
    constructor
    · rw [hlines, List.length_map, List.length_reverse, rtGrid_eq,
        paintRT_eq_paintWith, length_paintWith, length_mkGrid,
        Int.toNat_of_nonneg (by omega)]
    · intro row hrow
      have hrect : RectW (rtGrid coords chars)
          (listMaxD (coords.map Prod.fst) + 1).toNat := by
        rw [rtGrid_eq, paintRT_eq_paintWith]
        exact RectW_paintWith _ _ _ _ (RectW_mkGrid _ _)
      obtain ⟨i, hi⟩ := List.mem_iff_get?.mp hrow
      rw [hrect i row hi, Int.toNat_of_nonneg (by omega)]

/-- Witness for C5: the plain-text content `"Z 1 2"` (one record, a 1×1
grid) and the row-text record set `[(0,0)]` with character `"Q"` (whose
render is the single line `"Q"`). -/
theorem c5_grid_dimensions_witness :
    (decodeSecretMessage "Z 1 2" =
        Except.ok ((ptGrid (parseCharacters "Z 1 2")).map rowJoin) ∧
      ((ptGrid (parseCharacters "Z 1 2")).length : Int) =
        specMaxY (parseCharacters "Z 1 2") -
          specMinY (parseCharacters "Z 1 2") + 1 ∧
      ∀ row ∈ ptGrid (parseCharacters "Z 1 2"),
        (row.length : Int) =
          specMaxX (parseCharacters "Z 1 2") -
            specMinX (parseCharacters "Z 1 2") + 1) ∧
    (((["Q"] : List String).length : Int) =
        listMaxD ([((0 : Int), (0 : Int))].map Prod.snd) + 1 ∧
      ∀ row ∈ rtGrid [((0 : Int), (0 : Int))] [JStr.str "Q"],
        (row.length : Int) =
          listMaxD ([((0 : Int), (0 : Int))].map Prod.fst) + 1) :=
  ⟨c5_grid_dimensions.1 "Z 1 2" (by decide),
   c5_grid_dimensions.2 [((0 : Int), (0 : Int))] [JStr.str "Q"] ["Q"]
     (by decide) rfl⟩

/-- C9: in both rasterizers, when records collide on a grid cell the
final cell value is the character of the record that occurs last in
iteration order, and cells no record targets keep their previous value:
each cell of the painted grid is the last hit of the record list on that
cell, or the untouched cell when there is none. -/
theorem c9_last_write_wins :
    (∀ (h w : Nat) (mX mY : Int) (rs : List CharRec) (r c : Nat),
      (∀ rec ∈ rs, mX ≤ rec.x ∧ mY ≤ rec.y ∧
        (rec.y - mY).toNat < h ∧ (rec.x - mX).toNat < w) →
      cellAt (paintPT (mkGrid h w) rs mX mY) r c =
        ((rs.filter (hitsPT mX mY r c)).getLast?).elim
          (cellAt (mkGrid h w) r c) (fun rec => some rec.char)) ∧
    (∀ (h w : Nat) (l : List ((Int × Int) × JStr)) (r c : Nat), 0 < h →
      cellAt (paintRT (mkGrid h w) l) r c =
        ((l.filter (hitsRT h w r c)).getLast?).elim
          (cellAt (mkGrid h w) r c) (fun p => some (renderJS p.2))) := by
  constructor
  · intro h w mX mY rs r c hreq
    rw [paintPT_eq_paintWith,
      paintWith_cellAt (fPT mX mY) rs (mkGrid h w) (RectW_mkGrid_gW h w) ?pr r c,
      filterMap_eq_filter_map _ (hitsPT mX mY r c) (fun rec => rec.char)
        (hitVal_fPT mX mY (mkGrid h w).length (gW (mkGrid h w)) r c) rs,
      getLast?_map]
    case pr =>
      intro rec hrec r' c' v hf
      unfold fPT at hf
      cases hf
      obtain ⟨h1, h2, h3, h4⟩ := hreq rec hrec
      have hh : 0 < h := lt_of_le_of_lt (Nat.zero_le _) h3
      constructor
      · rw [length_mkGrid]
        exact h3
      · rw [gW_mkGrid h w hh]
        exact h4
    cases hgl : (rs.filter (hitsPT mX mY r c)).getLast? <;> rfl
  · intro h w l r c hh
    rw [paintRT_eq_paintWith,
      paintWith_cellAt fRT l (mkGrid h w) (RectW_mkGrid_gW h w) ?rr r c,
      length_mkGrid, gW_mkGrid h w hh,
      filterMap_eq_filter_map _ (hitsRT h w r c) (fun p => renderJS p.2)
        (hitVal_fRT h w r c) l,
      getLast?_map]
    case rr =>
      intro p _ r' c' v hf
      rw [length_mkGrid, gW_mkGrid h w hh] at hf
      have := fRT_range h w p r' c' v hf
      rw [length_mkGrid, gW_mkGrid h w hh]
      exact this
    cases hgl : (l.filter (hitsRT h w r c)).getLast? <;> rfl

/-- Witness for C9: two records on cell (0,0) in each dialect; the later
one ("Q", respectively "b") wins. -/
theorem c9_last_write_wins_witness :
    cellAt (paintPT (mkGrid 1 1) [⟨"P", 0, 0⟩, ⟨"Q", 0, 0⟩] 0 0) 0 0 =
      some "Q" ∧
    cellAt (paintRT (mkGrid 2 2)
      [((0, 0), JStr.str "a"), ((0, 0), JStr.str "b")]) 0 0 = some "b" :=
  ⟨c9_last_write_wins.1 1 1 0 0 [⟨"P", 0, 0⟩, ⟨"Q", 0, 0⟩] 0 0 (by decide),
   c9_last_write_wins.2 2 2 [((0, 0), JStr.str "a"), ((0, 0), JStr.str "b")]
     0 0 (by decide)⟩

/-- C10: in the composed row-text pipeline the out-of-bounds skip branch
is unreachable: every coordinate a successful extraction yields is
non-negative, and for any non-empty list of non-negative records the
grid is sized to the maxima plus one, so the in-bounds filter keeps every
record (each is painted) and the build-and-render stage succeeds. -/
theorem c10_skip_unreachable :
    (∀ (rows : List String) (coords : List (Int × Int)) (chars : List JStr),
      extractDataFromRows rows = Except.ok (coords, chars) →
      ∀ p ∈ coords, 0 ≤ p.1 ∧ 0 ≤ p.2) ∧
    (∀ (coords : List (Int × Int)) (chars : List JStr),
      coords ≠ [] → coords.length = chars.length →
      (∀ p ∈ coords, 0 ≤ p.1 ∧ 0 ≤ p.2) →
      (coords.zip chars).filter
        (inBChk (listMaxD (coords.map Prod.snd) + 1).toNat
          (listMaxD (coords.map Prod.fst) + 1).toNat) = coords.zip chars ∧
      buildAndRenderGrid coords chars =
        Except.ok (((rtGrid coords chars).reverse).map rowJoin)) := by
  constructor
  · intro rows coords chars hok p hp
    have hempty := (extract_ok_iff rows (coords, chars)).mp hok
    have hc : coords = [] := by
      have := hempty.2
      cases this
      rfl
    rw [hc] at hp
    exact absurd hp (List.not_mem_nil p)
  · intro coords chars hne hlen hnn
    have hx0 : 0 ≤ listMaxD (coords.map Prod.fst) := by
      cases coords with
      | nil => exact absurd rfl hne
      | cons p t =>
        have hm : p.1 ∈ (p :: t).map Prod.fst := by
          rw [List.map_cons]
          exact List.mem_cons_self _ _
        exact le_trans (hnn p (List.mem_cons_self p t)).1 (le_listMaxD _ _ hm)
    have hy0 : 0 ≤ listMaxD (coords.map Prod.snd) := by
      cases coords with
      | nil => exact absurd rfl hne
      | cons p t =>
        have hm : p.2 ∈ (p :: t).map Prod.snd := by
          rw [List.map_cons]
          exact List.mem_cons_self _ _
        exact le_trans (hnn p (List.mem_cons_self p t)).2 (le_listMaxD _ _ hm)
    constructor
    · apply List.filter_eq_self.mpr
      intro q hq
      obtain ⟨hq1, _⟩ := List.mem_zip hq
      have hnnq := hnn q.1 hq1
      have hxle : q.1.1 ≤ listMaxD (coords.map Prod.fst) :=
        le_listMaxD _ _ (List.mem_map_of_mem Prod.fst hq1)
      have hyle : q.1.2 ≤ listMaxD (coords.map Prod.snd) :=
        le_listMaxD _ _ (List.mem_map_of_mem Prod.snd hq1)
      have hcy : (((listMaxD (coords.map Prod.snd) + 1).toNat : Nat) : Int) =
          listMaxD (coords.map Prod.snd) + 1 :=
        Int.toNat_of_nonneg (by omega)
      have hcx : (((listMaxD (coords.map Prod.fst) + 1).toNat : Nat) : Int) =
          listMaxD (coords.map Prod.fst) + 1 :=
        Int.toNat_of_nonneg (by omega)
      unfold inBChk
      simp only [Bool.not_eq_true', Bool.or_eq_false_iff,
        decide_eq_false_iff_not, not_lt, not_le]
      refine ⟨⟨⟨hnnq.1, hnnq.2⟩, ?_⟩, ?_⟩
      · rw [hcy]; omega
      · rw [hcx]; omega
    · exact build_ok_of coords chars hne hlen (by omega) (by omega)

/-- Witness for C10: the empty row list (the only successful extraction)
and the record set `[(2,1)]` with character `"W"`. -/
theorem c10_skip_unreachable_witness :
    (∀ p ∈ ([] : List (Int × Int)), 0 ≤ p.1 ∧ 0 ≤ p.2) ∧
    (([((2 : Int), (1 : Int))].zip [JStr.str "W"]).filter (inBChk 2 3) =
      [((2 : Int), (1 : Int))].zip [JStr.str "W"] ∧
    buildAndRenderGrid [((2 : Int), (1 : Int))] [JStr.str "W"] =
      Except.ok ["  W", "   "]) :=
  ⟨c10_skip_unreachable.1 [] [] [] rfl,
   c10_skip_unreachable.2 [((2 : Int), (1 : Int))] [JStr.str "W"]
     (by decide) rfl (by decide)⟩
